import Mathlib

set_option autoImplicit false

/-!
# Verification of the dog inventory reconciliation plugin

Shallow embedding of `plugins/inventory/dog_inventory.py` (class
`InventoryModule`): the semi-structured value model, the name normalizer
`fix_group`, the fact/live group merge (the `deepmerge` library's
`always_merger`, as invoked on line 206), group registration
(`parse_group`), the suffix-synthesis loop of `_populate`, the host
filter loop, and host registration (`parse_host`).  Claims from the
specification are stated and settled as theorems below the definitions.
-/

namespace DogInventory

/-- Semi-structured (JSON-like) values as delivered by the dog API and
handled by the plugin: Python `None`, booleans, integers, strings,
lists, and string-keyed dicts (modelled as association lists in
insertion order, mirroring Python dict iteration order). -/
inductive Value where
  | null
  | bool (b : Bool)
  | int (n : Int)
  | str (s : String)
  | list (xs : List Value)
  | dict (xs : List (String × Value))
deriving Repr

/-- Python `str()` coercion as used by `fix_group` (line 387:
`str(name)`): `str(None) = "None"`, `str(True) = "True"`, integers
print in decimal.  The plugin only ever applies it to scalar values
(group names, ids, versions, var values); the textual repr of composite
values is abstracted by a placeholder. -/
def pyStr : Value → String
  | .null => "None"
  | .bool b => if b then "True" else "False"
  | .int n => toString n
  | .str s => s
  | .list _ => "<list>"
  | .dict _ => "<dict>"

/-- Python `str.replace(old, new)` for single-character `old`/`new`
(the only form the plugin uses, line 387): every occurrence of `old`
is replaced by `new`, all other characters are unchanged. -/
def replaceChar (old new : Char) : List Char → List Char
  | [] => []
  | c :: cs => (if c = old then new else c) :: replaceChar old new cs

/-- The three chained replacements of `fix_group` (line 387), in source
order: `-` first, then `+`, then `.`, each to `_`. -/
def fixGroupChars (l : List Char) : List Char :=
  replaceChar '.' '_' (replaceChar '+' '_' (replaceChar '-' '_' l))

/-- Model of `InventoryModule.fix_group` (lines 386-387):
`str(name).replace("-", "_").replace("+", "_").replace(".", "_")`. -/
def fix_group (v : Value) : String :=
  ⟨fixGroupChars (pyStr v).data⟩

theorem replaceChar_eq_map (o n : Char) (l : List Char) :
    replaceChar o n l = l.map (fun c => if c = o then n else c) := by
  induction l with
  | nil => rfl
  | cons c cs ih => simp [replaceChar, ih]

theorem fixGroupChars_eq_map (l : List Char) :
    fixGroupChars l =
      l.map (fun c => if c = '-' ∨ c = '+' ∨ c = '.' then '_' else c) := by
  simp only [fixGroupChars, replaceChar_eq_map, List.map_map]
  refine List.map_congr_left ?_
  intro c _
  by_cases h1 : c = '-' <;> by_cases h2 : c = '+' <;> by_cases h3 : c = '.' <;>
    simp_all

/-- C9: `fix_group` is total over any input — null and numeric values
are coerced to string form (`None`, decimal digits) — and replaces
every occurrence of `-`, `+`, `.` with `_`, leaving all other
characters unchanged; in particular `fix_group "a-b+c.d" = "a_b_c_d"`. -/
theorem c9_fix_group_total_charwise :
    (∀ s : String, fix_group (.str s) =
      ⟨s.data.map (fun c => if c = '-' ∨ c = '+' ∨ c = '.' then '_' else c)⟩)
    ∧ fix_group .null = "None"
    ∧ (∀ n : Int, fix_group (.int n) = fix_group (.str (toString n)))
    ∧ fix_group (.str "a-b+c.d") = "a_b_c_d" := by
  refine ⟨fun s => ?_, by decide, fun n => rfl, by decide⟩
  simp [fix_group, pyStr, fixGroupChars_eq_map]

/-! ## Python equality and membership -/

mutual
/-- Python `==` on the modelled values: structural equality (`None == None`,
scalars by value, lists and dicts elementwise); values of different shapes
compare unequal — in particular a string never equals a dict. -/
def pyEq : Value → Value → Bool
  | .null, .null => true
  | .bool a, .bool b => a == b
  | .int a, .int b => a == b
  | .str a, .str b => a == b
  | .list a, .list b => pyEqList a b
  | .dict a, .dict b => pyEqDict a b
  | _, _ => false

/-- Elementwise Python `==` on lists. -/
def pyEqList : List Value → List Value → Bool
  | [], [] => true
  | a :: as, b :: bs => pyEq a b && pyEqList as bs
  | _, _ => false

/-- Entrywise Python `==` on dicts (order-sensitive association lists;
an adequate model for the comparisons the plugin performs). -/
def pyEqDict : List (String × Value) → List (String × Value) → Bool
  | [], [] => true
  | (k, a) :: as, (l, b) :: bs => k == l && pyEq a b && pyEqDict as bs
  | _, _ => false
end

/-- Python `x in l` for a list `l`: membership by `==`. -/
def pyIn (x : Value) (l : List Value) : Bool :=
  l.any (pyEq x)

/-- First-occurrence lookup in an association list (Python dict access
on the model). -/
def lookupV : List (String × Value) → String → Option Value
  | [], _ => none
  | (k, v) :: rest, key => if k = key then some v else lookupV rest key

/-- Python `d.get(k)`: the stored value, or `None` when the key is
absent. -/
def pyGet (d : List (String × Value)) (k : String) : Value :=
  (lookupV d k).getD .null

/-- Python `d[k] = v` on a dict: replaces the value at the first
occurrence of `k` keeping its position, or appends a new entry. -/
def setKey : List (String × Value) → String → Value → List (String × Value)
  | [], k, v => [(k, v)]
  | (k', v') :: rest, k, v =>
      if k' = k then (k, v) :: rest else (k', v') :: setKey rest k v

/-! ## The fact/live deep merge (`deepmerge.always_merger`, line 206)

`always_merger` merges `base` (the fact groups) into `nxt` (the live
groups) with: dict/dict → per-key recursive merge (base keys in base
order, then nxt-only keys in nxt order), list/list → `base + nxt`
concatenation, and every other combination (scalar conflict or type
conflict) → the `nxt` value wins. -/

mutual
/-- One step of `always_merger.merge(base, nxt)`.  The dict case is the
dict strategy: entries of `base` in order, each merged with the `nxt`
value of the same key when present, followed by the `nxt` entries whose
key is absent from `base`. -/
def deepMerge : Value → Value → Value
  | .dict b, .dict n =>
      .dict (mergeGo b n ++ n.filter (fun e => (lookupV b e.1).isNone))
  | .list b, .list n => .list (b ++ n)
  | _, n => n

/-- The per-`base`-entry pass of the dict strategy. -/
def mergeGo : List (String × Value) → List (String × Value) → List (String × Value)
  | [], _ => []
  | (k, bv) :: rest, n =>
      (match lookupV n k with
       | some nv => (k, deepMerge bv nv)
       | none => (k, bv)) :: mergeGo rest n
end

/-- The dict strategy by itself (`deepMerge` restricted to two dicts);
`always_merger.merge(fact_groups, dog_groups)` on line 206 is exactly
this applied to the two group maps. -/
def mergeDicts (b n : List (String × Value)) : List (String × Value) :=
  mergeGo b n ++ n.filter (fun e => (lookupV b e.1).isNone)

theorem deepMerge_dict (b n : List (String × Value)) :
    deepMerge (.dict b) (.dict n) = .dict (mergeDicts b n) := rfl

/-- A value with no internal structure for the merge: not a list, not a
dict. -/
def isScalar : Value → Bool
  | .list _ => false
  | .dict _ => false
  | _ => true

/-- How `deepMerge` acts on the optional values the two sides of a dict
merge associate to one key. -/
def mergeLookup : Option Value → Option Value → Option Value
  | some bv, some nv => some (deepMerge bv nv)
  | some bv, none => some bv
  | none, o => o

theorem lookupV_append (l1 l2 : List (String × Value)) (k : String) :
    lookupV (l1 ++ l2) k =
      match lookupV l1 k with
      | some v => some v
      | none => lookupV l2 k := by
  induction l1 with
  | nil => simp [lookupV]
  | cons e rest ih =>
      obtain ⟨k', v'⟩ := e
      by_cases hk : k' = k <;> simp [lookupV, hk, ih]

theorem lookupV_mergeGo (b n : List (String × Value)) (k : String) :
    lookupV (mergeGo b n) k =
      match lookupV b k with
      | some bv => some (match lookupV n k with
          | some nv => deepMerge bv nv
          | none => bv)
      | none => none := by
  induction b with
  | nil => simp [mergeGo, lookupV]
  | cons e rest ih =>
      obtain ⟨k', bv'⟩ := e
      by_cases hk : k' = k
      · subst hk
        cases hn : lookupV n k' <;> simp [mergeGo, lookupV, hn]
      · cases hn : lookupV n k' <;> simp [mergeGo, lookupV, hn, hk, ih]

theorem lookupV_filter_of_none (b n : List (String × Value)) (k : String)
    (hb : lookupV b k = none) :
    lookupV (n.filter (fun e => (lookupV b e.1).isNone)) k = lookupV n k := by
  induction n with
  | nil => simp [lookupV]
  | cons e rest ih =>
      obtain ⟨k', v'⟩ := e
      by_cases hk : k' = k
      · subst hk
        simp [List.filter, hb, lookupV]
      · cases hpass : (lookupV b k').isNone <;>
          simp [List.filter, hpass, lookupV, hk, ih]

/-- Key-by-key characterization of the dict strategy. -/
theorem lookupV_mergeDicts (b n : List (String × Value)) (k : String) :
    lookupV (mergeDicts b n) k = mergeLookup (lookupV b k) (lookupV n k) := by
  rw [mergeDicts, lookupV_append, lookupV_mergeGo]
  cases hb : lookupV b k with
  | some bv => cases hn : lookupV n k <;> simp [mergeLookup]
  | none =>
      rw [lookupV_filter_of_none b n k hb]
      cases hn : lookupV n k <;> simp [mergeLookup]

/-- C2: the fact/live group merge is a deep merge: for every key
present in either map the sides' values are combined by `mergeLookup` —
both dicts → recurse, both lists → concatenation, only one side →
kept, scalar conflict → the `nxt` (live-service) value wins. -/
theorem c2_deep_merge_semantics :
    (∀ b n : List (String × Value), ∀ k : String,
        lookupV (mergeDicts b n) k = mergeLookup (lookupV b k) (lookupV n k))
    ∧ (∀ bd nd : List (String × Value),
        deepMerge (.dict bd) (.dict nd) = .dict (mergeDicts bd nd))
    ∧ (∀ bl nl : List Value,
        deepMerge (.list bl) (.list nl) = .list (bl ++ nl))
    ∧ (∀ bv nv : Value, isScalar bv = true → isScalar nv = true →
        deepMerge bv nv = nv) := by
  refine ⟨lookupV_mergeDicts, fun bd nd => rfl, fun bl nl => rfl, ?_⟩
  intro bv nv hb hn
  cases bv <;> cases nv <;> first
    | rfl
    | simp [isScalar] at hb hn

/-- Witness for C2 at concrete inputs: key in both maps with scalar
values → live value; list values → concatenation. -/
theorem c2_deep_merge_semantics_witness :
    lookupV (mergeDicts [("a", Value.int 1), ("b", Value.int 5)]
        [("a", Value.int 2), ("c", Value.int 7)]) "a" = some (Value.int 2)
    ∧ deepMerge (Value.int 1) (Value.int 2) = Value.int 2 := by
  refine ⟨?_, c2_deep_merge_semantics.2.2.2 (Value.int 1) (Value.int 2) rfl rfl⟩
  rw [c2_deep_merge_semantics.1]
  rfl

/-- C3 counterexample: a group present in both maps with the same
single child on both sides — the merged `children` list contains that
child twice (list concatenation), not exactly once as the claim's
set-union reading requires. -/
theorem c3_children_union_counterexample :
    lookupV (mergeDicts
        [("web", Value.dict [("children", Value.list [Value.str "app"])])]
        [("web", Value.dict [("children", Value.list [Value.str "app"])])]) "web"
      = some (Value.dict [("children", Value.list [Value.str "app", Value.str "app"])])
    ∧ Value.list [Value.str "app", Value.str "app"] ≠ Value.list [Value.str "app"] := by
  refine ⟨rfl, by simp⟩

/-- C3 amended: for a group present in both the fact and live maps
whose two records both define a `children` list, the merged group's
`children` is the concatenation of the fact list followed by the live
list; a child occurring in both inputs appears in both positions
(duplicates are not removed at merge time). -/
theorem c3_children_concat (fn ln : List (String × Value)) (g : String)
    (fr lr : List (String × Value)) (fc lc : List Value)
    (hf : lookupV fn g = some (.dict fr))
    (hl : lookupV ln g = some (.dict lr))
    (hfc : lookupV fr "children" = some (.list fc))
    (hlc : lookupV lr "children" = some (.list lc)) :
    ∃ mr : List (String × Value),
      lookupV (mergeDicts fn ln) g = some (.dict mr)
      ∧ lookupV mr "children" = some (.list (fc ++ lc)) := by
  refine ⟨mergeDicts fr lr, ?_, ?_⟩
  · rw [lookupV_mergeDicts, hf, hl]
    rfl
  · rw [lookupV_mergeDicts, hfc, hlc]
    rfl

/-- Witness for C3 amended at concrete inputs. -/
theorem c3_children_concat_witness :
    ∃ mr : List (String × Value),
      lookupV (mergeDicts
          [("web", Value.dict [("children", Value.list [Value.str "app"])])]
          [("web", Value.dict [("children", Value.list [Value.str "db"])])]) "web"
        = some (.dict mr)
      ∧ lookupV mr "children" = some (.list [Value.str "app", Value.str "db"]) :=
  c3_children_concat
    [("web", Value.dict [("children", Value.list [Value.str "app"])])]
    [("web", Value.dict [("children", Value.list [Value.str "db"])])]
    "web" [("children", Value.list [Value.str "app"])]
    [("children", Value.list [Value.str "db"])]
    [Value.str "app"] [Value.str "db"] rfl rfl rfl rfl

/-! ## The fact-group host pre-filter (`_populate`, lines 200-204)

The source keeps a fact group's `hosts` entry `group_host` when
`group_host in hosts` — but `hosts` is the raw value returned by
`client.get_all_active_hosts()` / `get_all_hosts()`: a *list of host
record dicts* (each later consumed as `host.get(...)` in the host loop,
line 222).  A hostname string never compares equal to a record dict, so
the membership test is false for every entry. -/

/-- Lines 200-203 of `_populate`: `new_group_hosts` built by keeping the
entries of a fact group's `hosts` dict whose key occurs in the fetched
`hosts` value. -/
def filterFactGroupHosts (hosts : List Value) (groupHosts : List (String × Value)) :
    List (String × Value) :=
  groupHosts.filter (fun e => pyIn (.str e.1) hosts)

/-- C1 (code evaluation): when the fetched live hosts are host-record
dicts — which they are: the host loop reads fields from each — the
pre-filter drops *every* fact membership entry, even one whose hostname
is the `name` of a live host; the kept set is always empty, not "exactly
the entries whose hostname is live". -/
theorem c1_fact_prefilter_drops_everything :
    (∀ hostRecs : List (List (String × Value)),
      ∀ groupHosts : List (String × Value),
        filterFactGroupHosts (hostRecs.map .dict) groupHosts = [])
    ∧ filterFactGroupHosts [Value.dict [("name", Value.str "h1")]]
        [("h1", Value.dict [])] = [] := by
  refine ⟨?_, rfl⟩
  intro hostRecs groupHosts
  rw [filterFactGroupHosts, List.filter_eq_nil_iff]
  intro e he
  rw [pyIn, List.any_eq_true]
  rintro ⟨v, hv, hpe⟩
  obtain ⟨r, hr, rfl⟩ := List.mem_map.mp hv
  simp [pyEq] at hpe

/-! ## The inventory graph (Ansible `InventoryData` as used by the plugin)

The mutable accumulator behind `self.inventory`: host and group name
sets (insertion-ordered, idempotent adds), group→host membership edges,
parent→child group edges, and last-write-wins variable maps. -/

/-- Failure modes of a reconciliation run; every one is re-raised as a
fatal wrapped error by `parse` (lines 437-441), so an `Except.error`
result means the run aborts and no graph is produced. -/
inductive RunError where
  /-- The `AnsibleError` of lines 362-366: group record's `hosts` is present
  but not a dict; names the group. -/
  | malformedHosts (group : String)
  /-- The `AnsibleError` of lines 372-376: group record's `vars` is present
  but not a dict; names the group. -/
  | malformedVars (group : String)
  /-- The `TypeError` of line 361: `parse_group` was handed Python `None`
  (a missing record from `self.groups.get`) and `"hosts" in None` is
  not a valid membership test. -/
  | noneNotIterable (group : String)
  /-- The `TypeError` of line 213: `r'.*' + self.group_suffix` with the
  `group_suffix` option unset (`None`). -/
  | suffixNoneType
  /-- The `TypeError` of line 382: iterating a non-iterable `children`
  value. -/
  | childrenNotIterable (group : String)
  /-- The inventory layer rejects a non-string group name (line 383). -/
  | badChildName (group : String)
  /-- The inventory layer rejects a missing/non-string host name. -/
  | badHostName
  /-- Raised by `add_host` with a group that does not exist in the inventory. -/
  | groupNotFound (group : String)
  /-- Raised by `set_variable` on an entity that is neither a group nor a host. -/
  | unknownEntity (entity : String)
  /-- The `AttributeError` of line 286: `.items()` on a non-dict host
  `vars` value. -/
  | hostVarsNotDict
  /-- The `TypeError` of lines 275-276: string concatenation with a
  non-string `os_distribution` while `os_version` is present. -/
  | osDistributionNotStr
deriving Repr, DecidableEq

/-- Variable store keyed by (entity, variable name); Python dict
semantics (update-in-place, last write wins). -/
def setVar (m : List ((String × String) × Value)) (k : String × String) (v : Value) :
    List ((String × String) × Value) :=
  match m with
  | [] => [(k, v)]
  | (k', v') :: rest => if k' = k then (k, v) :: rest else (k', v') :: setVar rest k v

/-- First-occurrence lookup in a variable store. -/
def lookupVar (m : List ((String × String) × Value)) (k : String × String) : Option Value :=
  match m with
  | [] => none
  | (k', v') :: rest => if k' = k then some v' else lookupVar rest k

/-- The inventory graph assembled by one run. -/
structure Graph where
  hostNames : List String
  groupNames : List String
  /-- Edges (group, host) of membership. -/
  members : List (String × String)
  /-- Edges (parent, child) between groups. -/
  childEdges : List (String × String)
  hostVars : List ((String × String) × Value)
  groupVars : List ((String × String) × Value)
deriving Repr

/-- The fresh graph of one run's start. -/
def emptyGraph : Graph := ⟨[], [], [], [], [], []⟩

/-- Model of `InventoryData.add_group`: idempotent group insertion. -/
def addGroup (G : Graph) (g : String) : Graph :=
  if g ∈ G.groupNames then G else { G with groupNames := G.groupNames ++ [g] }

/-- Host insertion half of `InventoryData.add_host`: idempotent. -/
def addHostName (G : Graph) (h : String) : Graph :=
  if h ∈ G.hostNames then G else { G with hostNames := G.hostNames ++ [h] }

/-- Membership edge insertion: idempotent. -/
def addMember (G : Graph) (g h : String) : Graph :=
  if (g, h) ∈ G.members then G else { G with members := G.members ++ [(g, h)] }

/-- Model of `InventoryData.add_child`: idempotent parent→child edge insertion. -/
def addChildEdge (G : Graph) (p c : String) : Graph :=
  if (p, c) ∈ G.childEdges then G else { G with childEdges := G.childEdges ++ [(p, c)] }

/-- Model of `InventoryData.add_host(host, group)`: a truthy group must already
exist (else `AnsibleError`); the host is inserted and, when a truthy
group was given, joined to it.  Python's `if group:` treats both `None`
and the empty string as "no group". -/
def add_host (G : Graph) (h : String) (g : Option String) : Except RunError Graph :=
  match g with
  | none => .ok (addHostName G h)
  | some gname =>
      if gname = "" then .ok (addHostName G h)
      else if gname ∈ G.groupNames then .ok (addMember (addHostName G h) gname h)
      else .error (.groupNotFound gname)

/-- Model of `InventoryData.set_variable`: groups are checked before hosts; an
unknown entity is an error. -/
def set_variable (G : Graph) (entity k : String) (v : Value) : Except RunError Graph :=
  if entity ∈ G.groupNames then
    .ok { G with groupVars := setVar G.groupVars (entity, k) v }
  else if entity ∈ G.hostNames then
    .ok { G with hostVars := setVar G.hostVars (entity, k) v }
  else .error (.unknownEntity entity)

/-! ## Group registration (`parse_group`, lines 358-384) -/

/-- Python iteration over a `children` value (line 382): a list yields
its elements, a string its characters, a dict its keys; scalars and
`None` raise `TypeError`. -/
def childrenIter (g : String) : Value → Except RunError (List Value)
  | .list xs => .ok xs
  | .str s => .ok (s.data.map (fun c => .str (String.mk [c])))
  | .dict d => .ok (d.map (fun e => Value.str e.1))
  | _ => .error (.childrenNotIterable g)

/-- Lines 382-384: each child name is inserted as a group (the
inventory layer accepts only strings) and a parent→child edge is
recorded. -/
def addChildren (G : Graph) (g : String) : List Value → Except RunError Graph
  | [] => .ok G
  | c :: rest =>
      match c with
      | .str cname => addChildren (addChildEdge (addGroup G cname) g cname) g rest
      | _ => .error (.badChildName g)

/-- Lines 368-369: join each hostname of the record's `hosts` dict to
the group. -/
def joinRecHosts (G : Graph) (g : String) : List (String × Value) → Except RunError Graph
  | [] => .ok G
  | e :: rest => do
      let G2 ← add_host G e.1 (some g)
      joinRecHosts G2 g rest

/-- Lines 378-379: set each entry of the record's `vars` dict as a
group variable. -/
def setRecVars (G : Graph) (g : String) : List (String × Value) → Except RunError Graph
  | [] => .ok G
  | e :: rest => do
      let G2 ← set_variable G g e.1 e.2
      setRecVars G2 g rest

/-- Lines 361-369 of `parse_group`: validate and process the record's
`hosts` field. -/
def hostsStage (G : Graph) (g : String) (d : List (String × Value)) :
    Except RunError Graph :=
  match lookupV d "hosts" with
  | none => .ok G
  | some (.dict hs) => joinRecHosts G g hs
  | some _ => .error (.malformedHosts g)

/-- Lines 371-379 of `parse_group`: validate and process the record's
`vars` field. -/
def varsStage (G : Graph) (g : String) (d : List (String × Value)) :
    Except RunError Graph :=
  match lookupV d "vars" with
  | none => .ok G
  | some (.dict vs) => setRecVars G g vs
  | some _ => .error (.malformedVars g)

/-- Lines 381-384 of `parse_group`: the `children` block, guarded by
`group != "_meta"`. -/
def childrenStage (G : Graph) (g : String) (d : List (String × Value)) :
    Except RunError Graph :=
  if g = "_meta" then .ok G
  else
    match lookupV d "children" with
    | none => .ok G
    | some cv => do
        let cs ← childrenIter g cv
        addChildren G g cs

/-- Model of `InventoryModule.parse_group(group, data)` (lines 358-384).  Every
record that reaches it is a dict (group records from the API, the fact
snapshot, or synthesized parents) or Python `None` (a failed
`self.groups.get` lookup, line 282), so `data` is modelled as an
optional dict.  `None` makes the membership test `"hosts" in None` of
line 361 raise `TypeError` — after line 359 has already inserted the
group. -/
def parse_group (G : Graph) (g : String) (data : Option (List (String × Value))) :
    Except RunError Graph :=
  match data with
  | none => .error (.noneNotIterable g)
  | some d => do
      let G2 ← hostsStage (addGroup G g) g d
      let G3 ← varsStage G2 g d
      childrenStage G3 g d

@[simp] theorem except_bind_ok {α β : Type} (x : α) (f : α → Except RunError β) :
    (Except.ok x >>= f) = f x := rfl

@[simp] theorem except_bind_error {α β : Type} (e : RunError)
    (f : α → Except RunError β) :
    ((Except.error e : Except RunError α) >>= f) = Except.error e := rfl

/-! ## The suffix-synthesis loop of `_populate` (lines 211-220) -/

/-- The suffix test of line 213: `re.fullmatch(r'.*' + sfx + '$', s)`
is "s ends with sfx" for the documented literal (metacharacter-free)
suffix values such as `'_qa'`. -/
def sfxMatch (s sfx : String) : Bool := decide (sfx.data <:+ s.data)

/-- The strip of line 214: `re.sub(r'' + sfx + '$', '', s)` removes one
trailing copy of the suffix. -/
def sfxStrip (s sfx : String) : String :=
  ⟨s.data.take (s.data.length - sfx.data.length)⟩

theorem string_append_data (a b : String) : (a ++ b).data = a.data ++ b.data := rfl

/-- A suffix-matching name decomposes as its strip followed by the
suffix. -/
theorem sfxMatch_decomp (s sfx : String) (h : sfxMatch s sfx = true) :
    sfxStrip s sfx ++ sfx = s := by
  rw [sfxMatch, decide_eq_true_iff] at h
  obtain ⟨t, ht⟩ := h
  have hlen : s.data.length - sfx.data.length = t.length := by
    rw [← ht, List.length_append]
    omega
  have hdata : (sfxStrip s sfx ++ sfx).data = s.data := by
    rw [string_append_data, sfxStrip, hlen, ← ht, List.take_left]
  exact String.ext hdata

/-- The synthesized parent record of lines 215-218. -/
def synthRecord (parent child : String) : List (String × Value) :=
  [("name", .str parent), ("children", .list [.str child])]

/-- One iteration of the loop (lines 212-220).  `group_suffix` unset
means `self.group_suffix` is `None` and `r'.*' + None` raises
`TypeError` before anything else happens.  For a configured suffix the
regexes `fullmatch(r'.*<sfx>$', name)` / `sub(r'<sfx>$', '', name)` are
a suffix test and suffix strip (the suffix is used verbatim, as in the
documented `'_qa'` style of value). -/
def suffixStep (suffix : Option String) (G : Graph) (gname : String)
    (grec : List (String × Value)) : Except RunError Graph := do
  match suffix with
  | none => throw .suffixNoneType
  | some sfx => do
      let G1 ←
        if sfxMatch gname sfx then
          parse_group G (sfxStrip gname sfx)
            (some (synthRecord (sfxStrip gname sfx) gname))
        else pure G
      parse_group G1 gname (some grec)

/-- The whole loop over the merged group map (lines 211-220), in
iteration order. -/
def processGroups (suffix : Option String) (G : Graph) :
    List (String × List (String × Value)) → Except RunError Graph
  | [] => .ok G
  | (g, rec) :: rest => do
      let G' ← suffixStep suffix G g rec
      processGroups suffix G' rest

/-! ## Record well-formedness and basic operation lemmas -/

/-- The field `f` of record `d` is absent or holds a dict. -/
def isDictOrAbsent (d : List (String × Value)) (f : String) : Bool :=
  match lookupV d f with
  | none => true
  | some (.dict _) => true
  | some _ => false

/-- The record's `children` field, when present, is a list of strings. -/
def childrenWF (d : List (String × Value)) : Bool :=
  match lookupV d "children" with
  | none => true
  | some (.list cs) => cs.all (fun c => match c with | .str _ => true | _ => false)
  | some _ => false

/-- A group record `parse_group` accepts without error. -/
def wfRec (d : List (String × Value)) : Bool :=
  isDictOrAbsent d "hosts" && isDictOrAbsent d "vars" && childrenWF d

/-- The entries of the record's `hosts` dict (empty when absent). -/
def recHostsEntries (d : List (String × Value)) : List (String × Value) :=
  match lookupV d "hosts" with
  | some (.dict hs) => hs
  | _ => []

/-- The entries of the record's `vars` dict (empty when absent). -/
def recVarsEntries (d : List (String × Value)) : List (String × Value) :=
  match lookupV d "vars" with
  | some (.dict vs) => vs
  | _ => []

/-- Predicate: `c` occurs in the record's `children` list. -/
def recChild (d : List (String × Value)) (c : String) : Prop :=
  match lookupV d "children" with
  | some (.list cs) => Value.str c ∈ cs
  | _ => False

@[simp] theorem addGroup_hostNames (G : Graph) (g : String) :
    (addGroup G g).hostNames = G.hostNames := by
  rw [addGroup]; split <;> rfl

@[simp] theorem addGroup_members (G : Graph) (g : String) :
    (addGroup G g).members = G.members := by
  rw [addGroup]; split <;> rfl

@[simp] theorem addGroup_childEdges (G : Graph) (g : String) :
    (addGroup G g).childEdges = G.childEdges := by
  rw [addGroup]; split <;> rfl

@[simp] theorem addGroup_hostVars (G : Graph) (g : String) :
    (addGroup G g).hostVars = G.hostVars := by
  rw [addGroup]; split <;> rfl

@[simp] theorem addGroup_groupVars (G : Graph) (g : String) :
    (addGroup G g).groupVars = G.groupVars := by
  rw [addGroup]; split <;> rfl

@[simp] theorem mem_addGroup (G : Graph) (g x : String) :
    x ∈ (addGroup G g).groupNames ↔ x ∈ G.groupNames ∨ x = g := by
  rw [addGroup]; split <;> rename_i h
  · constructor
    · exact Or.inl
    · rintro (hx | rfl)
      · exact hx
      · exact h
  · simp

@[simp] theorem addHostName_groupNames (G : Graph) (h : String) :
    (addHostName G h).groupNames = G.groupNames := by
  rw [addHostName]; split <;> rfl

@[simp] theorem addHostName_members (G : Graph) (h : String) :
    (addHostName G h).members = G.members := by
  rw [addHostName]; split <;> rfl

@[simp] theorem addHostName_childEdges (G : Graph) (h : String) :
    (addHostName G h).childEdges = G.childEdges := by
  rw [addHostName]; split <;> rfl

@[simp] theorem addHostName_hostVars (G : Graph) (h : String) :
    (addHostName G h).hostVars = G.hostVars := by
  rw [addHostName]; split <;> rfl

@[simp] theorem addHostName_groupVars (G : Graph) (h : String) :
    (addHostName G h).groupVars = G.groupVars := by
  rw [addHostName]; split <;> rfl

@[simp] theorem mem_addHostName (G : Graph) (h x : String) :
    x ∈ (addHostName G h).hostNames ↔ x ∈ G.hostNames ∨ x = h := by
  rw [addHostName]; split <;> rename_i hm
  · constructor
    · exact Or.inl
    · rintro (hx | rfl)
      · exact hx
      · exact hm
  · simp

@[simp] theorem addMember_groupNames (G : Graph) (g h : String) :
    (addMember G g h).groupNames = G.groupNames := by
  rw [addMember]; split <;> rfl

@[simp] theorem addMember_hostNames (G : Graph) (g h : String) :
    (addMember G g h).hostNames = G.hostNames := by
  rw [addMember]; split <;> rfl

@[simp] theorem addMember_childEdges (G : Graph) (g h : String) :
    (addMember G g h).childEdges = G.childEdges := by
  rw [addMember]; split <;> rfl

@[simp] theorem addMember_hostVars (G : Graph) (g h : String) :
    (addMember G g h).hostVars = G.hostVars := by
  rw [addMember]; split <;> rfl

@[simp] theorem addMember_groupVars (G : Graph) (g h : String) :
    (addMember G g h).groupVars = G.groupVars := by
  rw [addMember]; split <;> rfl

@[simp] theorem mem_addMember (G : Graph) (g h : String) (e : String × String) :
    e ∈ (addMember G g h).members ↔ e ∈ G.members ∨ e = (g, h) := by
  rw [addMember]; split <;> rename_i hm
  · constructor
    · exact Or.inl
    · rintro (hx | rfl)
      · exact hx
      · exact hm
  · simp

@[simp] theorem addChildEdge_groupNames (G : Graph) (p c : String) :
    (addChildEdge G p c).groupNames = G.groupNames := by
  rw [addChildEdge]; split <;> rfl

@[simp] theorem addChildEdge_hostNames (G : Graph) (p c : String) :
    (addChildEdge G p c).hostNames = G.hostNames := by
  rw [addChildEdge]; split <;> rfl

@[simp] theorem addChildEdge_members (G : Graph) (p c : String) :
    (addChildEdge G p c).members = G.members := by
  rw [addChildEdge]; split <;> rfl

@[simp] theorem addChildEdge_hostVars (G : Graph) (p c : String) :
    (addChildEdge G p c).hostVars = G.hostVars := by
  rw [addChildEdge]; split <;> rfl

@[simp] theorem addChildEdge_groupVars (G : Graph) (p c : String) :
    (addChildEdge G p c).groupVars = G.groupVars := by
  rw [addChildEdge]; split <;> rfl

@[simp] theorem mem_addChildEdge (G : Graph) (p c : String) (e : String × String) :
    e ∈ (addChildEdge G p c).childEdges ↔ e ∈ G.childEdges ∨ e = (p, c) := by
  rw [addChildEdge]; split <;> rename_i hm
  · constructor
    · exact Or.inl
    · rintro (hx | rfl)
      · exact hx
      · exact hm
  · simp

@[simp] theorem lookupVar_setVar_same (m : List ((String × String) × Value))
    (k : String × String) (v : Value) : lookupVar (setVar m k v) k = some v := by
  induction m with
  | nil => simp [setVar, lookupVar]
  | cons e rest ih =>
      obtain ⟨k', v'⟩ := e
      by_cases hk : k' = k <;> simp [setVar, lookupVar, hk, ih]

theorem lookupVar_setVar_other (m : List ((String × String) × Value))
    (k q : String × String) (v : Value) (hq : q ≠ k) :
    lookupVar (setVar m k v) q = lookupVar m q := by
  have hk2 : k ≠ q := fun h => hq h.symm
  induction m with
  | nil => simp [setVar, lookupVar, hk2]
  | cons e rest ih =>
      obtain ⟨k', v'⟩ := e
      by_cases hkk : k' = k
      · subst hkk
        simp [setVar, lookupVar, hk2]
      · by_cases hq' : k' = q <;> simp [setVar, lookupVar, hkk, hq', hq, ih]

/-! ## Success and frame lemmas for group registration -/

theorem add_host_ok_empty (G : Graph) (h : String) :
    add_host G h (some "") = .ok (addHostName G h) := by
  simp [add_host]

theorem add_host_ok_mem (G : Graph) (h g : String) (hne : g ≠ "")
    (hg : g ∈ G.groupNames) :
    add_host G h (some g) = .ok (addMember (addHostName G h) g h) := by
  simp [add_host, hne, hg]

theorem set_variable_group_ok (G : Graph) (g k : String) (v : Value)
    (hg : g ∈ G.groupNames) :
    set_variable G g k v = .ok { G with groupVars := setVar G.groupVars (g, k) v } := by
  simp [set_variable, hg]

theorem joinRecHosts_spec (g : String) (hs : List (String × Value)) :
    ∀ G : Graph, g ∈ G.groupNames →
    ∃ G', joinRecHosts G g hs = .ok G'
      ∧ G'.groupNames = G.groupNames
      ∧ G'.childEdges = G.childEdges
      ∧ G'.groupVars = G.groupVars
      ∧ G'.hostVars = G.hostVars
      ∧ (∀ e ∈ G.members, e ∈ G'.members)
      ∧ (∀ e ∈ G'.members, e ∈ G.members ∨ e.1 = g)
      ∧ (g ≠ "" → ∀ e ∈ hs, (g, e.1) ∈ G'.members) := by
  induction hs with
  | nil =>
      intro G hg
      exact ⟨G, rfl, rfl, rfl, rfl, rfl, fun e he => he, fun e he => Or.inl he,
        by simp⟩
  | cons e0 rest ih =>
      intro G hg
      by_cases hge : g = ""
      · subst hge
        obtain ⟨G', hok, h1, h2, h3, h4, h5, h6, _⟩ :=
          ih (addHostName G e0.1) (by simpa using hg)
        refine ⟨G', ?_, by simpa using h1, by simpa using h2, by simpa using h3,
          by simpa using h4, ?_, ?_, by simp⟩
        · rw [joinRecHosts, add_host_ok_empty, except_bind_ok, hok]
        · intro e he
          exact h5 e (by simpa using he)
        · intro e he
          simpa using h6 e he
      · obtain ⟨G', hok, h1, h2, h3, h4, h5, h6, h7⟩ :=
          ih (addMember (addHostName G e0.1) g e0.1) (by simpa using hg)
        refine ⟨G', ?_, by simpa using h1, by simpa using h2, by simpa using h3,
          by simpa using h4, ?_, ?_, ?_⟩
        · rw [joinRecHosts, add_host_ok_mem G e0.1 g hge hg, except_bind_ok, hok]
        · intro e he
          exact h5 e (by simp [he])
        · intro e he
          rcases h6 e he with hm | hm
          · rcases (mem_addMember _ _ _ _).mp (by simpa using hm) with hm' | hm'
            · exact Or.inl hm'
            · subst hm'
              exact Or.inr rfl
          · exact Or.inr hm
        · intro _ e he
          rcases List.mem_cons.mp he with rfl | hrest
          · exact h5 (g, e.1) (by simp)
          · exact h7 hge e hrest

theorem setRecVars_spec (g : String) (vs : List (String × Value)) :
    ∀ G : Graph, g ∈ G.groupNames →
    ∃ G', setRecVars G g vs = .ok G'
      ∧ G'.groupNames = G.groupNames
      ∧ G'.hostNames = G.hostNames
      ∧ G'.members = G.members
      ∧ G'.childEdges = G.childEdges
      ∧ G'.hostVars = G.hostVars
      ∧ (∀ q, (∀ e ∈ vs, q ≠ (g, e.1)) →
          lookupVar G'.groupVars q = lookupVar G.groupVars q)
      ∧ ((vs.map Prod.fst).Nodup →
          ∀ e ∈ vs, lookupVar G'.groupVars (g, e.1) = some e.2) := by
  induction vs with
  | nil =>
      intro G hg
      exact ⟨G, rfl, rfl, rfl, rfl, rfl, rfl, fun q _ => rfl, by simp⟩
  | cons e0 rest ih =>
      intro G hg
      obtain ⟨G', hok, h1, h2, h3, h4, h5, h6, h7⟩ :=
        ih { G with groupVars := setVar G.groupVars (g, e0.1) e0.2 } hg
      refine ⟨G', ?_, h1, h2, h3, h4, h5, ?_, ?_⟩
      · rw [setRecVars, set_variable_group_ok G g e0.1 e0.2 hg, except_bind_ok, hok]
      · intro q hq
        rw [h6 q (fun e he => hq e (List.mem_cons_of_mem e0 he))]
        exact lookupVar_setVar_other _ _ _ _ (hq e0 (List.mem_cons_self e0 rest))
      · intro hnd e he
        rw [List.map_cons, List.nodup_cons] at hnd
        obtain ⟨hnd0, hndrest⟩ := hnd
        rcases List.mem_cons.mp he with rfl | hrest
        · have hfr : ∀ e' ∈ rest, (g, e.1) ≠ (g, e'.1) := by
            intro e' he' hcontra
            apply hnd0
            rw [show e.1 = e'.1 from congrArg Prod.snd hcontra]
            exact List.mem_map_of_mem Prod.fst he'
          rw [h6 (g, e.1) hfr]
          simp
        · exact h7 hndrest e hrest

theorem addChildren_spec (g : String) (cs : List Value)
    (hwf : cs.all (fun c => match c with | .str _ => true | _ => false) = true) :
    ∀ G : Graph,
    ∃ G', addChildren G g cs = .ok G'
      ∧ (∀ x ∈ G.groupNames, x ∈ G'.groupNames)
      ∧ G'.hostNames = G.hostNames
      ∧ G'.members = G.members
      ∧ G'.hostVars = G.hostVars
      ∧ G'.groupVars = G.groupVars
      ∧ (∀ e ∈ G.childEdges, e ∈ G'.childEdges)
      ∧ (∀ e ∈ G'.childEdges, e ∈ G.childEdges ∨ (e.1 = g ∧ Value.str e.2 ∈ cs))
      ∧ (∀ c, Value.str c ∈ cs → (g, c) ∈ G'.childEdges) := by
  induction cs with
  | nil =>
      intro G
      exact ⟨G, rfl, fun x hx => hx, rfl, rfl, rfl, rfl, fun e he => he,
        fun e he => Or.inl he, by simp⟩
  | cons c0 rest ih =>
      intro G
      rw [List.all_cons, Bool.and_eq_true] at hwf
      cases c0 with
      | str cname =>
          obtain ⟨G', hok, h1, h2, h3, h4, h5, h6, h7, h8⟩ :=
            ih hwf.2 (addChildEdge (addGroup G cname) g cname)
          refine ⟨G', ?_, ?_, by simpa using h2, by simpa using h3,
            by simpa using h4, by simpa using h5, ?_, ?_, ?_⟩
          · rw [addChildren, hok]
          · intro x hx
            exact h1 x (by simp [hx])
          · intro e he
            exact h6 e (by simp [he])
          · intro e he
            rcases h7 e he with hm | hm
            · rcases (mem_addChildEdge _ _ _ _).mp (by simpa using hm) with hm' | hm'
              · exact Or.inl hm'
              · subst hm'
                exact Or.inr ⟨rfl, by simp⟩
            · exact Or.inr ⟨hm.1, List.mem_cons_of_mem _ hm.2⟩
          · intro c hc
            rcases List.mem_cons.mp hc with hc0 | hrest
            · have : c = cname := by
                simpa using hc0
              subst this
              exact h6 (g, c) (by simp)
            · exact h8 c hrest
      | null => simp at hwf
      | bool b => simp at hwf
      | int n => simp at hwf
      | list xs => simp at hwf
      | dict xs => simp at hwf

theorem hostsStage_spec (g : String) (d : List (String × Value))
    (hh : isDictOrAbsent d "hosts" = true) :
    ∀ G : Graph, g ∈ G.groupNames →
    ∃ G2, hostsStage G g d = .ok G2
      ∧ G2.groupNames = G.groupNames
      ∧ G2.childEdges = G.childEdges
      ∧ G2.groupVars = G.groupVars
      ∧ G2.hostVars = G.hostVars
      ∧ (∀ e ∈ G.members, e ∈ G2.members)
      ∧ (∀ e ∈ G2.members, e ∈ G.members ∨ e.1 = g)
      ∧ (g ≠ "" → ∀ e ∈ recHostsEntries d, (g, e.1) ∈ G2.members) := by
  intro G hg
  cases hhs : lookupV d "hosts" with
  | none =>
      exact ⟨G, by simp [hostsStage, hhs], rfl, rfl, rfl, rfl, fun e he => he,
        fun e he => Or.inl he, by simp [recHostsEntries, hhs]⟩
  | some v =>
      cases v with
      | dict hs =>
          obtain ⟨G2, hok, h1, h2, h3, h4, h5, h6, h7⟩ := joinRecHosts_spec g hs G hg
          exact ⟨G2, by simp [hostsStage, hhs, hok], h1, h2, h3, h4, h5, h6,
            by simpa [recHostsEntries, hhs] using h7⟩
      | null => simp [isDictOrAbsent, hhs] at hh
      | bool b => simp [isDictOrAbsent, hhs] at hh
      | int n => simp [isDictOrAbsent, hhs] at hh
      | str s => simp [isDictOrAbsent, hhs] at hh
      | list xs => simp [isDictOrAbsent, hhs] at hh

theorem varsStage_spec (g : String) (d : List (String × Value))
    (hv : isDictOrAbsent d "vars" = true) :
    ∀ G : Graph, g ∈ G.groupNames →
    ∃ G3, varsStage G g d = .ok G3
      ∧ G3.groupNames = G.groupNames
      ∧ G3.hostNames = G.hostNames
      ∧ G3.members = G.members
      ∧ G3.childEdges = G.childEdges
      ∧ G3.hostVars = G.hostVars
      ∧ (∀ q, (∀ e ∈ recVarsEntries d, q ≠ (g, e.1)) →
          lookupVar G3.groupVars q = lookupVar G.groupVars q)
      ∧ (((recVarsEntries d).map Prod.fst).Nodup →
          ∀ e ∈ recVarsEntries d, lookupVar G3.groupVars (g, e.1) = some e.2) := by
  intro G hg
  cases hvs : lookupV d "vars" with
  | none =>
      exact ⟨G, by simp [varsStage, hvs], rfl, rfl, rfl, rfl, rfl, fun q _ => rfl,
        by simp [recVarsEntries, hvs]⟩
  | some v =>
      cases v with
      | dict vs =>
          obtain ⟨G3, hok, h1, h2, h3, h4, h5, h6, h7⟩ := setRecVars_spec g vs G hg
          refine ⟨G3, by simp [varsStage, hvs, hok], h1, h2, h3, h4, h5, ?_, ?_⟩
          · intro q hq
            exact h6 q (by simpa [recVarsEntries, hvs] using hq)
          · intro hnd e he
            exact h7 (by simpa [recVarsEntries, hvs] using hnd) e
              (by simpa [recVarsEntries, hvs] using he)
      | null => simp [isDictOrAbsent, hvs] at hv
      | bool b => simp [isDictOrAbsent, hvs] at hv
      | int n => simp [isDictOrAbsent, hvs] at hv
      | str s => simp [isDictOrAbsent, hvs] at hv
      | list xs => simp [isDictOrAbsent, hvs] at hv

theorem childrenStage_spec (g : String) (d : List (String × Value))
    (hc : childrenWF d = true) :
    ∀ G : Graph,
    ∃ G4, childrenStage G g d = .ok G4
      ∧ (∀ x ∈ G.groupNames, x ∈ G4.groupNames)
      ∧ G4.hostNames = G.hostNames
      ∧ G4.members = G.members
      ∧ G4.hostVars = G.hostVars
      ∧ G4.groupVars = G.groupVars
      ∧ (∀ e ∈ G.childEdges, e ∈ G4.childEdges)
      ∧ (∀ e ∈ G4.childEdges, e ∈ G.childEdges ∨ (e.1 = g ∧ recChild d e.2))
      ∧ (g ≠ "_meta" → ∀ c, recChild d c → (g, c) ∈ G4.childEdges) := by
  intro G
  by_cases hgm : g = "_meta"
  · exact ⟨G, by simp [childrenStage, hgm], fun x hx => hx, rfl, rfl, rfl, rfl,
      fun e he => he, fun e he => Or.inl he, fun hne => absurd hgm hne⟩
  · cases hcs : lookupV d "children" with
    | none =>
        refine ⟨G, by simp [childrenStage, hgm, hcs], fun x hx => hx, rfl, rfl,
          rfl, rfl, fun e he => he, fun e he => Or.inl he, ?_⟩
        intro _ c hcc
        rw [recChild, hcs] at hcc
        exact absurd hcc id
    | some cv =>
        cases cv with
        | list cs =>
            have hc' : (cs.all (fun c => match c with | .str _ => true | _ => false)) = true := by
              simpa [childrenWF, hcs] using hc
            obtain ⟨G4, hok, h1, h2, h3, h4, h5, h6, h7, h8⟩ :=
              addChildren_spec g cs hc' G
            refine ⟨G4, ?_, h1, h2, h3, h4, h5, h6, ?_, ?_⟩
            · simp [childrenStage, hgm, hcs, childrenIter, hok]
            · intro e he
              rcases h7 e he with hm | hm
              · exact Or.inl hm
              · exact Or.inr ⟨hm.1, by simpa [recChild, hcs] using hm.2⟩
            · intro _ c hcc
              exact h8 c (by simpa [recChild, hcs] using hcc)
        | null => simp [childrenWF, hcs] at hc
        | bool b => simp [childrenWF, hcs] at hc
        | int n => simp [childrenWF, hcs] at hc
        | str s => simp [childrenWF, hcs] at hc
        | dict xs => simp [childrenWF, hcs] at hc

theorem parse_group_spec (g : String) (d : List (String × Value))
    (hwf : wfRec d = true) :
    ∀ G : Graph,
    ∃ G', parse_group G g (some d) = .ok G'
      ∧ (∀ x ∈ G.groupNames, x ∈ G'.groupNames) ∧ g ∈ G'.groupNames
      ∧ G'.hostVars = G.hostVars
      ∧ (∀ e ∈ G.members, e ∈ G'.members)
      ∧ (∀ e ∈ G'.members, e ∈ G.members ∨ e.1 = g)
      ∧ (∀ e ∈ G.childEdges, e ∈ G'.childEdges)
      ∧ (∀ e ∈ G'.childEdges, e ∈ G.childEdges ∨ (e.1 = g ∧ recChild d e.2))
      ∧ (∀ q, (∀ e ∈ recVarsEntries d, q ≠ (g, e.1)) →
          lookupVar G'.groupVars q = lookupVar G.groupVars q)
      ∧ (g ≠ "" → ∀ e ∈ recHostsEntries d, (g, e.1) ∈ G'.members)
      ∧ (((recVarsEntries d).map Prod.fst).Nodup →
          ∀ e ∈ recVarsEntries d, lookupVar G'.groupVars (g, e.1) = some e.2)
      ∧ (g ≠ "_meta" → ∀ c, recChild d c → (g, c) ∈ G'.childEdges) := by
  simp only [wfRec, Bool.and_eq_true] at hwf
  obtain ⟨⟨hh, hv⟩, hc⟩ := hwf
  intro G
  obtain ⟨G2, hok2, a1, a2, a3, a4, a5, a6, a7⟩ :=
    hostsStage_spec g d hh (addGroup G g) (by simp)
  obtain ⟨G3, hok3, b1, b2, b3, b4, b5, b6, b7⟩ :=
    varsStage_spec g d hv G2 (by rw [a1]; simp)
  obtain ⟨G4, hok4, c1, c2, c3, c4, c5, c6, c7, c8⟩ := childrenStage_spec g d hc G3
  have hrun : parse_group G g (some d) = .ok G4 := by
    show (hostsStage (addGroup G g) g d >>= fun G2 =>
      varsStage G2 g d >>= fun G3 => childrenStage G3 g d) = .ok G4
    rw [hok2, except_bind_ok, hok3, except_bind_ok, hok4]
  refine ⟨G4, hrun, ?_, ?_, ?_, ?_, ?_, ?_, ?_, ?_, ?_, ?_, ?_⟩
  · intro x hx
    apply c1
    rw [b1, a1]
    simp [hx]
  · apply c1
    rw [b1, a1]
    simp
  · rw [c4, b5, a4]
    simp
  · intro e he
    rw [c3, b3]
    exact a5 e (by simpa using he)
  · intro e he
    rw [c3, b3] at he
    rcases a6 e he with hm | hm
    · exact Or.inl (by simpa using hm)
    · exact Or.inr hm
  · intro e he
    apply c6
    rw [b4, a2]
    simpa using he
  · intro e he
    rcases c7 e he with hm | hm
    · rw [b4, a2] at hm
      exact Or.inl (by simpa using hm)
    · exact Or.inr hm
  · intro q hq
    rw [c5, b6 q hq, a3]
    simp
  · intro hne e he
    rw [c3, b3]
    exact a7 hne e he
  · intro hnd e he
    rw [c5]
    exact b7 hnd e he
  · exact c8

theorem wfRec_synthRecord (p c : String) : wfRec (synthRecord p c) = true := rfl

theorem recChild_synthRecord (p c x : String) :
    recChild (synthRecord p c) x ↔ x = c := by
  simp [recChild, synthRecord, lookupV]

theorem recVarsEntries_synthRecord (p c : String) :
    recVarsEntries (synthRecord p c) = [] := rfl

theorem suffixStep_spec (sfx g : String) (rec : List (String × Value))
    (hwf : wfRec rec = true) :
    ∀ G : Graph,
    ∃ G', suffixStep (some sfx) G g rec = .ok G'
      ∧ (∀ x ∈ G.groupNames, x ∈ G'.groupNames) ∧ g ∈ G'.groupNames
      ∧ (∀ e ∈ G.members, e ∈ G'.members)
      ∧ (∀ e ∈ G.childEdges, e ∈ G'.childEdges)
      ∧ (∀ e ∈ G'.childEdges, e ∈ G.childEdges ∨ (e.1 = g ∧ recChild rec e.2)
          ∨ (sfxMatch g sfx = true ∧ e = (sfxStrip g sfx, g)))
      ∧ (∀ q, (∀ e ∈ recVarsEntries rec, q ≠ (g, e.1)) →
          lookupVar G'.groupVars q = lookupVar G.groupVars q)
      ∧ (sfxMatch g sfx = true → sfxStrip g sfx ∈ G'.groupNames)
      ∧ (sfxMatch g sfx = true → sfxStrip g sfx ≠ "_meta" →
          (sfxStrip g sfx, g) ∈ G'.childEdges)
      ∧ (g ≠ "" → ∀ e ∈ recHostsEntries rec, (g, e.1) ∈ G'.members)
      ∧ (((recVarsEntries rec).map Prod.fst).Nodup →
          ∀ e ∈ recVarsEntries rec, lookupVar G'.groupVars (g, e.1) = some e.2) := by
  intro G
  by_cases hm : sfxMatch g sfx = true
  · obtain ⟨Ga, hokA, a1, a2, a3, a4, a5, a6, a7, a8, a9, a10, a11⟩ :=
      parse_group_spec (sfxStrip g sfx) (synthRecord (sfxStrip g sfx) g)
        (wfRec_synthRecord _ _) G
    obtain ⟨G', hokB, b1, b2, b3, b4, b5, b6, b7, b8, b9, b10, b11⟩ :=
      parse_group_spec g rec hwf Ga
    have hrun : suffixStep (some sfx) G g rec = .ok G' := by
      simp only [suffixStep, hm, if_true, hokA, except_bind_ok, hokB]
    refine ⟨G', hrun, ?_, b2, ?_, ?_, ?_, ?_, ?_, ?_, ?_, ?_⟩
    · intro x hx
      exact b1 x (a1 x hx)
    · intro e he
      exact b4 e (a4 e he)
    · intro e he
      exact b6 e (a6 e he)
    · intro e he
      rcases b7 e he with hm1 | hm1
      · rcases a7 e hm1 with hm2 | hm2
        · exact Or.inl hm2
        · refine Or.inr (Or.inr ⟨hm, ?_⟩)
          have := (recChild_synthRecord _ _ _).mp hm2.2
          cases e
          simp only [Prod.mk.injEq]
          exact ⟨hm2.1, this⟩
      · exact Or.inr (Or.inl hm1)
    · intro q hq
      rw [b8 q hq, a8 q (by simp [recVarsEntries_synthRecord])]
    · intro _
      exact b1 _ a2
    · intro _ hpm
      apply b6
      exact a11 hpm g ((recChild_synthRecord _ _ _).mpr rfl)
    · exact b9
    · exact b10
  · obtain ⟨G', hokB, b1, b2, b3, b4, b5, b6, b7, b8, b9, b10, b11⟩ :=
      parse_group_spec g rec hwf G
    have hrun : suffixStep (some sfx) G g rec = .ok G' := by
      simp only [suffixStep, hm, if_false, Bool.false_eq_true]
      exact hokB
    refine ⟨G', hrun, b1, b2, b4, b6, ?_, b8, ?_, ?_, b9, b10⟩
    · intro e he
      rcases b7 e he with hm1 | hm1
      · exact Or.inl hm1
      · exact Or.inr (Or.inl hm1)
    · intro hc
      exact absurd hc hm
    · intro hc
      exact absurd hc hm

theorem processGroups_spec (sfx : String)
    (gs : List (String × List (String × Value)))
    (hwf : ∀ e ∈ gs, wfRec e.2 = true) :
    ∀ G : Graph,
    ∃ G', processGroups (some sfx) G gs = .ok G'
      ∧ (∀ x ∈ G.groupNames, x ∈ G'.groupNames)
      ∧ (∀ e ∈ G.members, e ∈ G'.members)
      ∧ (∀ e ∈ G.childEdges, e ∈ G'.childEdges)
      ∧ (∀ e ∈ G'.childEdges, e ∈ G.childEdges ∨ ∃ p, p ∈ gs ∧
          ((e.1 = p.1 ∧ recChild p.2 e.2)
            ∨ (sfxMatch p.1 sfx = true ∧ e = (sfxStrip p.1 sfx, p.1))))
      ∧ (∀ q, (∀ p ∈ gs, q.1 ≠ p.1) →
          lookupVar G'.groupVars q = lookupVar G.groupVars q) := by
  induction gs with
  | nil =>
      intro G
      exact ⟨G, rfl, fun x hx => hx, fun e he => he, fun e he => he,
        fun e he => Or.inl he, fun q _ => rfl⟩
  | cons p0 rest ih =>
      intro G
      obtain ⟨G1, hok1, s1, s2, s3, s4, s5, s6, s7, s8, s9, s10⟩ :=
        suffixStep_spec sfx p0.1 p0.2 (hwf p0 (List.mem_cons_self p0 rest)) G
      obtain ⟨G', hok2, t1, t2, t3, t4, t5⟩ :=
        ih (fun e he => hwf e (List.mem_cons_of_mem p0 he)) G1
      have hrun : processGroups (some sfx) G (p0 :: rest) = .ok G' := by
        show (suffixStep (some sfx) G p0.1 p0.2 >>= fun Gx =>
          processGroups (some sfx) Gx rest) = .ok G'
        rw [hok1, except_bind_ok, hok2]
      refine ⟨G', hrun, ?_, ?_, ?_, ?_, ?_⟩
      · intro x hx
        exact t1 x (s1 x hx)
      · intro e he
        exact t2 e (s3 e he)
      · intro e he
        exact t3 e (s4 e he)
      · intro e he
        rcases t4 e he with hm | ⟨p, hp, hcase⟩
        · rcases s5 e hm with hm1 | hm1 | hm1
          · exact Or.inl hm1
          · exact Or.inr ⟨p0, List.mem_cons_self p0 rest, Or.inl hm1⟩
          · exact Or.inr ⟨p0, List.mem_cons_self p0 rest, Or.inr hm1⟩
        · exact Or.inr ⟨p, List.mem_cons_of_mem p0 hp, hcase⟩
      · intro q hq
        rw [t5 q (fun p hp => hq p (List.mem_cons_of_mem p0 hp))]
        apply s6
        intro e _
        have hne := hq p0 (List.mem_cons_self p0 rest)
        intro hcontra
        exact hne (congrArg Prod.fst hcontra)

/-- A group record whose `hosts` or `vars` field is present but not a
dict makes `parse_group` fail with the corresponding `AnsibleError`
naming the group (`hosts` is checked first). -/
theorem parse_group_malformed (G : Graph) (g : String) (rec : List (String × Value))
    (hbad : isDictOrAbsent rec "hosts" = false
      ∨ (isDictOrAbsent rec "hosts" = true ∧ isDictOrAbsent rec "vars" = false)) :
    parse_group G g (some rec) = .error (.malformedHosts g)
    ∨ parse_group G g (some rec) = .error (.malformedVars g) := by
  rcases hbad with hbad | ⟨hok, hbad⟩
  · left
    show (hostsStage (addGroup G g) g rec >>= fun G2 =>
      varsStage G2 g rec >>= fun G3 => childrenStage G3 g rec) = _
    cases hhs : lookupV rec "hosts" with
    | none => simp [isDictOrAbsent, hhs] at hbad
    | some v =>
        cases v with
        | dict hs => simp [isDictOrAbsent, hhs] at hbad
        | null => rw [hostsStage, hhs, except_bind_error]
        | bool b => rw [hostsStage, hhs, except_bind_error]
        | int n => rw [hostsStage, hhs, except_bind_error]
        | str s => rw [hostsStage, hhs, except_bind_error]
        | list xs => rw [hostsStage, hhs, except_bind_error]
  · right
    obtain ⟨G2, hok2, _, _, _, _, _, _, _⟩ :=
      hostsStage_spec g rec hok (addGroup G g) (by simp)
    show (hostsStage (addGroup G g) g rec >>= fun G2 =>
      varsStage G2 g rec >>= fun G3 => childrenStage G3 g rec) = _
    rw [hok2, except_bind_ok]
    cases hvs : lookupV rec "vars" with
    | none => simp [isDictOrAbsent, hvs] at hbad
    | some v =>
        cases v with
        | dict vs => simp [isDictOrAbsent, hvs] at hbad
        | null => rw [varsStage, hvs, except_bind_error]
        | bool b => rw [varsStage, hvs, except_bind_error]
        | int n => rw [varsStage, hvs, except_bind_error]
        | str s => rw [varsStage, hvs, except_bind_error]
        | list xs => rw [varsStage, hvs, except_bind_error]

theorem suffixStep_malformed (sfx g : String) (rec : List (String × Value))
    (G : Graph)
    (hbad : isDictOrAbsent rec "hosts" = false
      ∨ (isDictOrAbsent rec "hosts" = true ∧ isDictOrAbsent rec "vars" = false)) :
    suffixStep (some sfx) G g rec = .error (.malformedHosts g)
    ∨ suffixStep (some sfx) G g rec = .error (.malformedVars g) := by
  by_cases hm : sfxMatch g sfx = true
  · obtain ⟨Ga, hokA, _, _, _, _, _, _, _, _, _, _, _⟩ :=
      parse_group_spec (sfxStrip g sfx) (synthRecord (sfxStrip g sfx) g)
        (wfRec_synthRecord _ _) G
    rcases parse_group_malformed Ga g rec hbad with herr | herr
    · left
      simp only [suffixStep, hm, if_true, hokA, except_bind_ok, herr]
    · right
      simp only [suffixStep, hm, if_true, hokA, except_bind_ok, herr]
  · rcases parse_group_malformed G g rec hbad with herr | herr
    · left
      simp only [suffixStep, hm, if_false, Bool.false_eq_true]
      exact herr
    · right
      simp only [suffixStep, hm, if_false, Bool.false_eq_true]
      exact herr

/-- C8: a group record whose `hosts` or `vars` field is present but not
a mapping makes the whole group-processing loop fail with an
`AnsibleError` that names the offending group (`MalformedHosts` /
`MalformedVars`); the `Except.error` result is re-raised by `parse` as
a fatal wrapped error, so the run aborts and no graph is produced.
Stated for a merged group map whose earlier entries are well-formed
(the loop stops at the first offending record) and a configured
`group_suffix` (without one every run aborts earlier, see C5). -/
theorem c8_malformed_group_is_fatal (sfx : String) (G0 : Graph)
    (pre post : List (String × List (String × Value)))
    (g : String) (rec : List (String × Value))
    (hpre : ∀ e ∈ pre, wfRec e.2 = true)
    (hbad : isDictOrAbsent rec "hosts" = false
      ∨ (isDictOrAbsent rec "hosts" = true ∧ isDictOrAbsent rec "vars" = false)) :
    processGroups (some sfx) G0 (pre ++ (g, rec) :: post) = .error (.malformedHosts g)
    ∨ processGroups (some sfx) G0 (pre ++ (g, rec) :: post)
        = .error (.malformedVars g) := by
  induction pre generalizing G0 with
  | nil =>
      rcases suffixStep_malformed sfx g rec G0 hbad with herr | herr
      · left
        show (suffixStep (some sfx) G0 g rec >>= fun Gx =>
          processGroups (some sfx) Gx post) = _
        rw [herr, except_bind_error]
      · right
        show (suffixStep (some sfx) G0 g rec >>= fun Gx =>
          processGroups (some sfx) Gx post) = _
        rw [herr, except_bind_error]
  | cons p0 rest ih =>
      obtain ⟨G1, hok1, _, _, _, _, _, _, _, _, _, _⟩ :=
        suffixStep_spec sfx p0.1 p0.2 (hpre p0 (List.mem_cons_self p0 rest)) G0
      have hstep : processGroups (some sfx) G0 ((p0 :: rest) ++ (g, rec) :: post)
          = processGroups (some sfx) G1 (rest ++ (g, rec) :: post) := by
        show (suffixStep (some sfx) G0 p0.1 p0.2 >>= fun Gx =>
          processGroups (some sfx) Gx (rest ++ (g, rec) :: post)) = _
        rw [hok1, except_bind_ok]
      rw [hstep]
      exact ih G1 (fun e he => hpre e (List.mem_cons_of_mem p0 he))

/-- Witness for C8 at a concrete input: a well-formed group followed by
a group whose `hosts` is a list. -/
theorem c8_malformed_group_is_fatal_witness :
    processGroups (some "_qa") emptyGraph
        [("ok", [("name", Value.str "x")]), ("bad", [("hosts", Value.list [])])]
      = .error (.malformedHosts "bad")
    ∨ processGroups (some "_qa") emptyGraph
        [("ok", [("name", Value.str "x")]), ("bad", [("hosts", Value.list [])])]
      = .error (.malformedVars "bad") :=
  c8_malformed_group_is_fatal "_qa" emptyGraph [("ok", [("name", Value.str "x")])]
    [] "bad" [("hosts", Value.list [])] (by decide) (Or.inl (by decide))

theorem processGroups_append (sfxO : Option String)
    (l1 l2 : List (String × List (String × Value))) :
    ∀ G : Graph, processGroups sfxO G (l1 ++ l2) =
      (processGroups sfxO G l1 >>= fun G1 => processGroups sfxO G1 l2) := by
  induction l1 with
  | nil => intro G; rfl
  | cons p rest ih =>
      intro G
      show (suffixStep sfxO G p.1 p.2 >>= fun Gx =>
          processGroups sfxO Gx (rest ++ l2)) =
        ((suffixStep sfxO G p.1 p.2 >>= fun Gx => processGroups sfxO Gx rest)
          >>= fun G1 => processGroups sfxO G1 l2)
      cases hss : suffixStep sfxO G p.1 p.2 with
      | error e => rfl
      | ok Gx =>
          rw [except_bind_ok, except_bind_ok]
          exact ih Gx

/-- C6 counterexample: with suffix `_qa`, the merged group `_meta_qa`
gets its synthetic parent `_meta` inserted, but the `group != "_meta"`
guard of line 381 suppresses the child edge, so `_meta_qa` is *not* a
child (let alone the sole child) of the synthesized parent. -/
theorem c6_meta_parent_counterexample :
    ∃ G', processGroups (some "_qa") emptyGraph
        [("_meta_qa", [("name", Value.str "_meta_qa")])] = .ok G'
      ∧ "_meta" ∈ G'.groupNames
      ∧ "_meta_qa" ∈ G'.groupNames
      ∧ ("_meta", "_meta_qa") ∉ G'.childEdges := by
  refine ⟨_, rfl, ?_, ?_, ?_⟩ <;> decide

/-- C6 amended: when a group-name suffix is configured, every merged
group `g` ending with that suffix — *except* those whose stripped
parent name is the reserved name `_meta`, for which the parent group is
created but no child edge is added — yields a synthetic parent group,
named with the suffix stripped, having `g` as its sole child; the
original suffixed group is still inserted and retains its own hosts and
vars.  Hypotheses: all records well-formed (else the run aborts), the
stripped name not itself a key of the merged map (the parent is
synthetic), map keys unique (Python dict), `g` nonempty. -/
theorem c6_suffix_synthesis (sfx g : String)
    (pre post : List (String × List (String × Value)))
    (rec : List (String × Value))
    (hwfall : ∀ e ∈ pre ++ (g, rec) :: post, wfRec e.2 = true)
    (hmatch : sfxMatch g sfx = true)
    (hpm : sfxStrip g sfx ≠ "_meta")
    (hpnk : ∀ e ∈ pre ++ (g, rec) :: post, e.1 ≠ sfxStrip g sfx)
    (hgnk : ∀ e ∈ pre ++ post, e.1 ≠ g)
    (hgne : g ≠ "")
    (hvnd : ((recVarsEntries rec).map Prod.fst).Nodup) :
    ∃ G', processGroups (some sfx) emptyGraph (pre ++ (g, rec) :: post) = .ok G'
      ∧ sfxStrip g sfx ∈ G'.groupNames
      ∧ g ∈ G'.groupNames
      ∧ (sfxStrip g sfx, g) ∈ G'.childEdges
      ∧ (∀ c : String, (sfxStrip g sfx, c) ∈ G'.childEdges → c = g)
      ∧ (∀ e ∈ recHostsEntries rec, (g, e.1) ∈ G'.members)
      ∧ (∀ e ∈ recVarsEntries rec, lookupVar G'.groupVars (g, e.1) = some e.2) := by
  have hwfpre : ∀ e ∈ pre, wfRec e.2 = true := fun e he =>
    hwfall e (List.mem_append_left _ he)
  have hwfrec : wfRec rec = true :=
    hwfall (g, rec) (List.mem_append_right _ (List.mem_cons_self _ _))
  have hwfpost : ∀ e ∈ post, wfRec e.2 = true := fun e he =>
    hwfall e (List.mem_append_right _ (List.mem_cons_of_mem _ he))
  obtain ⟨G1, hok1, p1, p2, p3, p4, p5⟩ := processGroups_spec sfx pre hwfpre emptyGraph
  obtain ⟨G2, hok2, s1, s2, s3, s4, s5, s6, s7, s8, s9, s10⟩ :=
    suffixStep_spec sfx g rec hwfrec G1
  obtain ⟨G3, hok3, q1, q2, q3, q4, q5⟩ := processGroups_spec sfx post hwfpost G2
  have hdg : sfxStrip g sfx ++ sfx = g := sfxMatch_decomp g sfx hmatch
  have hkey : ∀ x : String, sfxMatch x sfx = true →
      sfxStrip x sfx = sfxStrip g sfx → x = g := by
    intro x hx hsx
    have hdx := sfxMatch_decomp x sfx hx
    rw [← hdx, hsx, hdg]
  have hrun : processGroups (some sfx) emptyGraph (pre ++ (g, rec) :: post)
      = .ok G3 := by
    rw [processGroups_append, hok1, except_bind_ok]
    show (suffixStep (some sfx) G1 g rec >>= fun Gx =>
      processGroups (some sfx) Gx post) = _
    rw [hok2, except_bind_ok, hok3]
  refine ⟨G3, hrun, q1 _ (s7 hmatch), q1 _ s2, q3 _ (s8 hmatch hpm), ?_, ?_, ?_⟩
  · intro c hc
    rcases q4 (sfxStrip g sfx, c) hc with hin2 | ⟨p, hp, hcase⟩
    · rcases s5 (sfxStrip g sfx, c) hin2 with hin1 | hgc | hsy
      · rcases p4 (sfxStrip g sfx, c) hin1 with hem | ⟨p, hp, hcase⟩
        · simp [emptyGraph] at hem
        · rcases hcase with ⟨hp1, _⟩ | ⟨hmp, hep⟩
          · exact absurd hp1.symm
              (hpnk p (List.mem_append_left _ hp))
          · obtain ⟨hps, hpc⟩ := Prod.mk.injEq .. ▸ hep
            rw [hpc]
            exact hkey p.1 hmp hps.symm
      · exact absurd hgc.1 (fun h =>
          hpnk (g, rec) (List.mem_append_right _ (List.mem_cons_self _ _)) h.symm)
      · obtain ⟨_, hpc⟩ := Prod.mk.injEq .. ▸ hsy.2
        exact hpc
    · rcases hcase with ⟨hp1, _⟩ | ⟨hmp, hep⟩
      · exact absurd hp1.symm (hpnk p
          (List.mem_append_right _ (List.mem_cons_of_mem _ hp)))
      · obtain ⟨hps, hpc⟩ := Prod.mk.injEq .. ▸ hep
        rw [hpc]
        exact hkey p.1 hmp hps.symm
  · intro e he
    exact q2 _ (s9 hgne e he)
  · intro e he
    rw [q5 (g, e.1) (fun p hp => fun hcontra =>
      hgnk p (List.mem_append_right _ hp) hcontra.symm)]
    exact s10 hvnd e he

/-- Witness for C6 amended at concrete inputs: suffix `_qa`, one merged
group `web_qa` with a host and a var. -/
theorem c6_suffix_synthesis_witness :
    ∃ G', processGroups (some "_qa") emptyGraph
        [("web_qa", [("hosts", Value.dict [("h1", Value.null)]),
                     ("vars", Value.dict [("color", Value.str "blue")])])] = .ok G'
      ∧ sfxStrip "web_qa" "_qa" ∈ G'.groupNames
      ∧ "web_qa" ∈ G'.groupNames
      ∧ (sfxStrip "web_qa" "_qa", "web_qa") ∈ G'.childEdges
      ∧ (∀ c : String, (sfxStrip "web_qa" "_qa", c) ∈ G'.childEdges → c = "web_qa")
      ∧ (∀ e ∈ recHostsEntries [("hosts", Value.dict [("h1", Value.null)]),
            ("vars", Value.dict [("color", Value.str "blue")])],
          ("web_qa", e.1) ∈ G'.members)
      ∧ (∀ e ∈ recVarsEntries [("hosts", Value.dict [("h1", Value.null)]),
            ("vars", Value.dict [("color", Value.str "blue")])],
          lookupVar G'.groupVars ("web_qa", e.1) = some e.2) :=
  c6_suffix_synthesis "_qa" "web_qa" [] []
    [("hosts", Value.dict [("h1", Value.null)]),
     ("vars", Value.dict [("color", Value.str "blue")])]
    (by decide) (by decide) (by decide) (by decide) (by decide) (by decide)
    (by decide)

/-- C5 (code evaluation): with `group_suffix` left unconfigured, the
very first iteration of the group loop raises (`r'.*' + None`), so any
run over a non-empty merged group map aborts — the option is not, in
fact, safely optional.  Evaluated at a minimal well-formed group map. -/
theorem c5_unset_group_suffix_aborts :
    processGroups none emptyGraph
      [("web", [("name", Value.str "web")])] = .error .suffixNoneType := rfl

/-! ## The host filter loop (`_populate`, lines 222-240)

For each host the configured filters (dicts with `key`/`value`,
modelled as pairs) are walked in order; `self._compose(key, host)` is
the external template evaluator, abstracted as a function from the
filter key to an evaluation result for the fixed host under
consideration. -/

/-- Result of evaluating one filter key on a host via the template
engine (`self._compose`, line 228): a value, an undefined-variable
error (`jinja2.exceptions.UndefinedError` or
`ansible.errors.AnsibleUndefinedVariable`, both caught on lines
232-235), or any other exception (uncaught, fatal for the run). -/
inductive EvalResult where
  | ok (v : Value)
  | undefinedVar
  | otherError
deriving Repr

/-- What the filter loop decides for one host. -/
inductive FilterOutcome where
  | retained
  | excluded
  | fatal
deriving Repr, DecidableEq

/-- The filter loop for one host (lines 223-238), also returning the
filter keys actually evaluated, in order.  A value mismatch sets
`break_flag` and breaks (the host is skipped); an undefined-variable
error breaks *without* setting `break_flag` (the host is retained);
any other evaluation error propagates. -/
def runFilters (eval : String → EvalResult) :
    List (String × Value) → FilterOutcome × List String
  | [] => (.retained, [])
  | (key, expected) :: rest =>
      match eval key with
      | .ok v =>
          if pyEq v expected then
            match runFilters eval rest with
            | (out, keys) => (out, key :: keys)
          else (.excluded, [key])
      | .undefinedVar => (.retained, [key])
      | .otherError => (.fatal, [key])

/-- C7: filter predicates are evaluated in list order; when every
earlier predicate matched, the first predicate whose evaluated value
differs from its expected value excludes the host and nothing after it
is evaluated; and if evaluating a predicate raises an
undefined-reference error, evaluation stops there, the remaining
predicates are untouched, and the host is retained, not excluded. -/
theorem c7_filter_order_mismatch_undefined (eval : String → EvalResult)
    (pre post : List (String × Value)) (f : String × Value)
    (hpre : ∀ e ∈ pre, ∃ v, eval e.1 = .ok v ∧ pyEq v e.2 = true) :
    (∀ v, eval f.1 = .ok v → pyEq v f.2 = false →
      runFilters eval (pre ++ f :: post)
        = (.excluded, pre.map Prod.fst ++ [f.1]))
    ∧ (eval f.1 = .undefinedVar →
      runFilters eval (pre ++ f :: post)
        = (.retained, pre.map Prod.fst ++ [f.1])) := by
  induction pre with
  | nil =>
      obtain ⟨fk, fv⟩ := f
      constructor
      · intro v hv hne
        simp only [List.nil_append, runFilters, hv, hne, Bool.false_eq_true,
          if_false, List.map_nil]
      · intro hv
        simp only [List.nil_append, runFilters, hv, List.map_nil]
  | cons e0 rest ih =>
      obtain ⟨hok0, hrest⟩ : (∃ v, eval e0.1 = .ok v ∧ pyEq v e0.2 = true)
          ∧ ∀ e ∈ rest, ∃ v, eval e.1 = .ok v ∧ pyEq v e.2 = true :=
        ⟨hpre e0 (List.mem_cons_self e0 rest),
         fun e he => hpre e (List.mem_cons_of_mem e0 he)⟩
      obtain ⟨v0, hv0, hmatch0⟩ := hok0
      obtain ⟨ihm, ihu⟩ := ih hrest
      obtain ⟨k0, x0⟩ := e0
      constructor
      · intro v hv hne
        have := ihm v hv hne
        simp only [List.cons_append, runFilters, hv0, hmatch0, if_true,
          List.append_eq, this, List.map_cons, List.cons_append]
      · intro hv
        have := ihu hv
        simp only [List.cons_append, runFilters, hv0, hmatch0, if_true,
          List.append_eq, this, List.map_cons, List.cons_append]

/-- Witness for C7 at the spec's own example: filters
`[env=qa, tier=web]` and a host with `env=qa, tier=db` is excluded at
`tier` with the third filter never evaluated; a host where `env` is
undefined is retained with nothing after `env` evaluated. -/
theorem c7_filter_order_mismatch_undefined_witness :
    runFilters
      (fun k => if k = "env" then .ok (.str "qa")
        else if k = "tier" then .ok (.str "db") else .otherError)
      [("env", Value.str "qa"), ("tier", Value.str "web"), ("late", Value.null)]
      = (.excluded, ["env", "tier"])
    ∧ runFilters (fun _ => .undefinedVar)
      [("env", Value.str "qa"), ("tier", Value.str "web")]
      = (.retained, ["env"]) := by
  constructor
  · exact (c7_filter_order_mismatch_undefined
      (fun k => if k = "env" then .ok (.str "qa")
        else if k = "tier" then .ok (.str "db") else .otherError)
      [("env", Value.str "qa")] [("late", Value.null)] ("tier", Value.str "web")
      (by
        intro e he
        rw [List.mem_singleton] at he
        subst he
        exact ⟨.str "qa", rfl, rfl⟩)).1 (.str "db") rfl rfl
  · exact (c7_filter_order_mismatch_undefined (fun _ => .undefinedVar)
      [] [("tier", Value.str "web")] ("env", Value.str "qa")
      (by intro e he; simp at he)).2 rfl

/-! ## Host registration (`parse_host`, lines 242-356)

The constructed-features steps of lines 344-356 (`compose`, `groups`,
`keyed_groups`) default to `{}`/`[]`/`[]`; with those defaults the
three helper calls change nothing, so the model covers runs with the
constructed options left at their defaults and omits them. -/

/-- The options `parse_host` consults: `unique_id_key` (line 243) and
`add_ec2_groups` (line 304). -/
structure HostConfig where
  uid : String
  addEc2 : Bool

/-- Lookup of a group record in the merged group map
(`self.groups.get(group)`, line 282): Python `None` when absent. -/
def lookupRec : List (String × List (String × Value)) → String →
    Option (List (String × Value))
  | [], _ => none
  | (k, r) :: rest, key => if k = key then some r else lookupRec rest key

/-- Model of `InventoryModule._slugify` (lines 164-165):
`"dog_%s" % re.sub(r"[^\w-]", "_", value).lower().lstrip("_")`; `\w`
modelled as ASCII word characters. -/
def isWordChar (c : Char) : Bool :=
  c.isAlpha || c.isDigit || c = '_' || c = '-'

/-- See `isWordChar`; substitution, then lowercase, then strip leading
underscores, then the `dog_` tag. -/
def slugify (s : String) : String :=
  "dog_" ++ ⟨((s.data.map (fun c => if isWordChar c then c else '_')).map
    Char.toLower).dropWhile (fun c => c = '_')⟩

/-- Lines 274-280: when `os_version` is present, concatenate
`"os_" + os_distribution + "_" + fix_group(os_version)` (a `TypeError`
unless `os_distribution` is a string), insert that group, and join the
host to it. -/
def osGroupStep (G : Graph) (name : String) (osd osv : Value) :
    Except RunError Graph :=
  match osv with
  | .null => .ok G
  | osv =>
      match osd with
      | .str d =>
          add_host (addGroup G ("os_" ++ d ++ "_" ++ fix_group osv)) name
            (some ("os_" ++ d ++ "_" ++ fix_group osv))
      | _ => .error .osDistributionNotStr

/-- The shared shape of lines 289-333: when the field value is present,
insert the group `tag + fix_group(value)` and join the host to it. -/
def idGroupStep (G : Graph) (name tag : String) (v : Value) :
    Except RunError Graph :=
  match v with
  | .null => .ok G
  | v => add_host (addGroup G (tag ++ fix_group v)) name (some (tag ++ fix_group v))

/-- Lines 285-288: each entry of the host's nested `vars` dict is set
as a host variable and a group named `key + "_" + fix_group(value)` is
inserted — without joining the host to it. -/
def hostVarsLoop (G : Graph) (name : String) :
    List (String × Value) → Except RunError Graph
  | [] => .ok G
  | (k, v) :: rest => do
      let G1 ← set_variable G name k v
      hostVarsLoop (addGroup G1 (k ++ "_" ++ fix_group v)) name rest

/-- Dispatch on the host's `vars` value (lines 267-271, 285):
absent/`None` → nothing; a dict → the loop; anything else →
`AttributeError` on `.items()`. -/
def hostVarsStep (G : Graph) (name : String) (hv : Value) :
    Except RunError Graph :=
  match hv with
  | .null => .ok G
  | .dict vs => hostVarsLoop G name vs
  | _ => .error .hostVarsNotDict

/-- Lines 335-338: `full_facts` starts as `{dog_name: dog_name}` and
every remaining non-`None` host field is added under its slugified
key. -/
def isNull : Value → Bool
  | .null => true
  | _ => false

def buildFullFacts (hostRemaining : List (String × Value)) (dogName : Value) :
    List (String × Value) :=
  hostRemaining.foldl
    (fun acc e => if isNull e.2 then acc else setKey acc (slugify e.1) e.2)
    [("dog_name", dogName)]

/-- Lines 340-342: each non-`None` full-facts entry becomes a variable
on the host. -/
def setFullFacts (G : Graph) (name : String) :
    List (String × Value) → Except RunError Graph
  | [] => .ok G
  | (k, v) :: rest => do
      let G1 ← if isNull v then pure G else set_variable G name k v
      setFullFacts G1 name rest

/-- Model of `InventoryModule.parse_host(host)` (lines 242-356) in source order:
resolve the name (the inventory layer rejects a missing or non-string
one), register the host, the OS group, `parse_group` on the host's
normalized `group` against the merged map when non-empty, the plain
`add_host(name, group)` of line 284, the host-vars loop, the four
identity groups, the five EC2 groups when enabled, and the full-facts
variables. -/
def parse_host (cfg : HostConfig) (groups : List (String × List (String × Value)))
    (G : Graph) (host : List (String × Value)) : Except RunError Graph := do
  let group := fix_group (pyGet host "group")
  let dogName := pyGet host "name"
  let name ← match pyGet host cfg.uid with
    | .str s => pure s
    | _ => throw .badHostName
  let G ← add_host G name none
  let G ← osGroupStep G name (pyGet host "os_distribution") (pyGet host "os_version")
  let G ← if group ≠ "" then parse_group G group (lookupRec groups group) else pure G
  let G ← add_host G name (some group)
  let G ← hostVarsStep G name (pyGet host "vars")
  let G ← idGroupStep G name "name_" dogName
  let G ← idGroupStep G name "hostkey_" (pyGet host "hostkey")
  let G ← idGroupStep G name "id_" (pyGet host "id")
  let G ← idGroupStep G name "version_" (pyGet host "version")
  let G ← if cfg.addEc2 then do
      let G ← idGroupStep G name "ec2_instance_" (pyGet host "ec2_instance_id")
      let G ← idGroupStep G name "ec2_region_" (pyGet host "ec2_region")
      let G ← idGroupStep G name "ec2_" (pyGet host "ec2_vpc_id")
      let G ← idGroupStep G name "ec2_" (pyGet host "ec2_subnet_id")
      idGroupStep G name "ec2_availability_zone_" (pyGet host "ec2_availability_zone")
    else pure G
  setFullFacts G name (buildFullFacts (host.filter (fun e => e.1 ≠ "vars")) dogName)

@[simp] theorem except_pure_bind {α β : Type} (x : α) (f : α → Except RunError β) :
    ((pure x : Except RunError α) >>= f) = f x := rfl

theorem add_host_none (G : Graph) (h : String) :
    add_host G h none = .ok (addHostName G h) := rfl

theorem osGroupStep_null (G : Graph) (n : String) (osd : Value) :
    osGroupStep G n osd .null = .ok G := rfl

theorem parse_group_none (G : Graph) (g : String) :
    parse_group G g none = .error (.noneNotIterable g) := rfl

/-- C10 counterexample to the claim as stated: a host whose `group`
field is the *empty string* has a normalized group value (`""`) that is
not a key of the merged map, yet processing succeeds — the
`group != ""` guard of line 281 skips group registration entirely, so
no failure occurs. -/
theorem c10_empty_group_counterexample :
    ∃ G', parse_host ⟨"name", false⟩ [] emptyGraph
        [("name", Value.str "h1"), ("group", Value.str "")] = .ok G'
      ∧ fix_group (pyGet [("name", Value.str "h1"), ("group", Value.str "")]
          "group") = ""
      ∧ lookupRec ([] : List (String × List (String × Value))) "" = none :=
  ⟨_, rfl, rfl, rfl⟩

/-- C10 amended: processing an admitted host whose identity field is a
present string and whose `os_version` is absent fails for every
*non-empty* normalized `group` value that is not a key of the merged
group map: `parse_group` is invoked with the missing (`None`) record
and the membership test `"hosts" in None` raises, aborting the run.
(A host whose `group` field is the empty string skips registration and
does not fail.)  A host with no `group` field at all has the absent
value coerced to the string `"None"`, so the failure occurs unless a
group literally named `None` exists in the merged map. -/
theorem c10_missing_group_aborts (cfg : HostConfig)
    (groups : List (String × List (String × Value))) (G : Graph)
    (host : List (String × Value)) (nm : String)
    (hname : pyGet host cfg.uid = .str nm)
    (hos : pyGet host "os_version" = .null)
    (hg : fix_group (pyGet host "group") ≠ "")
    (hlk : lookupRec groups (fix_group (pyGet host "group")) = none) :
    parse_host cfg groups G host
      = .error (.noneNotIterable (fix_group (pyGet host "group"))) := by
  simp only [parse_host, hname, except_pure_bind, add_host_none, except_bind_ok,
    hos, osGroupStep_null, hg, if_true, hlk, parse_group_none, except_bind_error,
    ne_eq, not_false_eq_true]

/-- Witness for C10 at a concrete input: a host with no `group` field
at all and an empty merged map — the coerced group name is `"None"` and
the run aborts on the missing record. -/
theorem c10_missing_group_aborts_witness :
    parse_host ⟨"name", false⟩ [] emptyGraph [("name", Value.str "h1")]
      = .error (.noneNotIterable "None")
    ∧ fix_group (pyGet [("name", Value.str "h1")] "group") = "None" :=
  ⟨c10_missing_group_aborts ⟨"name", false⟩ [] emptyGraph
      [("name", Value.str "h1")] "h1" rfl rfl (by decide) rfl, rfl⟩

theorem string_append_ne_empty (p x : String) (hp : p.data ≠ []) : p ++ x ≠ "" := by
  intro hc
  have hdata : (p ++ x).data = [] := by rw [hc]
  rw [string_append_data] at hdata
  rcases List.append_eq_nil.mp hdata with ⟨hp1, _⟩
  exact hp hp1

/-- C4 counterexample: a host carrying `vars = {env: qa}` gets the
variable set and the group `env_qa` created, but is *not* joined to
`env_qa` — lines 285-288 call `add_group` without a matching
`add_host`. -/
theorem c4_vars_group_counterexample :
    ∃ G', parse_host ⟨"name", false⟩ [] emptyGraph
        [("name", Value.str "h1"), ("group", Value.str ""),
         ("vars", Value.dict [("env", Value.str "qa")])] = .ok G'
      ∧ "env_qa" ∈ G'.groupNames
      ∧ lookupVar G'.hostVars ("h1", "env") = some (Value.str "qa")
      ∧ ("env_qa", "h1") ∉ G'.members := by
  refine ⟨_, rfl, ?_, ?_, ?_⟩
  · decide
  · rfl
  · decide

/-- C4 amended: for every admitted host carrying a nested `vars`
mapping, each entry (key, value) is set as a host variable and the
group `<key>_<fix_group(value)>` is created if absent, but `parse_host`
does not join the host to that group (no membership edge is added).
Stated for a host with identity `name`, an empty `group` (so the merged
map is not consulted), and one var entry, with freshness hypotheses
keeping the var-derived names distinct from the host's own identity
names. -/
theorem c4_vars_group_not_joined (gs : List (String × List (String × Value)))
    (nm k : String) (v : Value)
    (h1 : k ≠ "dog_name") (h2 : k ≠ "dog_group")
    (h3 : k ++ "_" ++ fix_group v ≠ "name_" ++ fix_group (.str nm))
    (h4 : nm ≠ "name_" ++ fix_group (.str nm))
    (h5 : nm ≠ k ++ "_" ++ fix_group v) :
    ∃ G', parse_host ⟨"name", false⟩ gs emptyGraph
        [("name", Value.str nm), ("group", Value.str ""),
         ("vars", Value.dict [(k, v)])] = .ok G'
      ∧ (k ++ "_" ++ fix_group v) ∈ G'.groupNames
      ∧ lookupVar G'.hostVars (nm, k) = some v
      ∧ ((k ++ "_" ++ fix_group v, nm) ∉ G'.members) := by
  have hng : ("name_" ++ fix_group (.str nm)) ≠ "" :=
    string_append_ne_empty _ _ (by decide)
  have h3' := Ne.symm h3
  have hfge : fix_group (Value.str "") = "" := rfl
  refine ⟨⟨[nm], [k ++ "_" ++ fix_group v, "name_" ++ fix_group (.str nm)],
    [("name_" ++ fix_group (.str nm), nm)], [],
    [((nm, k), v), ((nm, "dog_name"), Value.str nm),
     ((nm, "dog_group"), Value.str "")], []⟩, ?_, by simp, ?_, ?_⟩
  · simp +decide [parse_host, pyGet, lookupV, emptyGraph, hfge, add_host,
      addGroup, addHostName, addMember, osGroupStep, hostVarsStep, hostVarsLoop,
      set_variable, setVar, idGroupStep, setFullFacts, buildFullFacts, slugify,
      setKey, isNull, List.foldl, List.filter, Prod.mk.injEq,
      h1, h2, h3, h3', h4, h5, hng]
  · simp [lookupVar]
  · simp [Prod.mk.injEq, h3]

/-- Witness for C4 amended at concrete inputs. -/
theorem c4_vars_group_not_joined_witness :
    ∃ G', parse_host ⟨"name", false⟩ [] emptyGraph
        [("name", Value.str "h1"), ("group", Value.str ""),
         ("vars", Value.dict [("env", Value.str "qa")])] = .ok G'
      ∧ ("env" ++ "_" ++ fix_group (Value.str "qa")) ∈ G'.groupNames
      ∧ lookupVar G'.hostVars ("h1", "env") = some (Value.str "qa")
      ∧ (("env" ++ "_" ++ fix_group (Value.str "qa"), "h1") ∉ G'.members) :=
  c4_vars_group_not_joined [] "h1" "env" (Value.str "qa")
    (by decide) (by decide) (by decide) (by decide) (by decide)

end DogInventory
